import Mathlib

/-!
Verification of the JJS (Juce Job System) repository.

The development shallowly embeds the data structures and operations of
`Source/ScopeTrackedFunctions.h`, `Source/Job.h`, `Source/LockFreeFifo.h`,
`Source/CallbackMap.h` and `Source/JobSystem.h` and proves or refutes the
behavioural properties stated in the repository's specification.

Modelling conventions:
* raw pointers (to `FunctionScope`, `ScopedFunctionContainer`, `Job`) become
  natural-number identities; `std::less<Job*>` — the comparator actually
  instantiated by `std::priority_queue<Job*>` — becomes comparison of the
  `addr` field that stands for the heap address of a job;
* `std::function` values are modelled by identifiers (`FnId`); invoking a
  set of callbacks is modelled by returning the list of identifiers invoked,
  in invocation order, paired with the argument passed;
* the mutable object graph of scopes and containers becomes an explicit
  state record mapping identities to the vectors the C++ objects hold.
-/

namespace JJS

/-! ## ScopeTrackedFunctions (Source/ScopeTrackedFunctions.h) -/

namespace ScopeTrackedFunctions

abbrev ContainerId := Nat
abbrev ScopeId := Nat
abbrev FnId := Nat

/-- One `ScopedFunction<fn>` entry: the container it was registered to and
the stored callback (`ScopedFunction::container`, `ScopedFunction::function`). -/
structure ScopedFunction where
  container : ContainerId
  function : FnId
deriving DecidableEq, Repr

/-- Joint state of all `FunctionScope` and `ScopedFunctionContainer` objects:
`containerScopes c` is container `c`'s `scopes` vector, `scopeContainers s` is
scope `s`'s `containers` vector, and `scopeFunctions s` is scope `s`'s
`scopedFunctions` vector. -/
structure SFState where
  containerScopes : ContainerId → List ScopeId
  scopeContainers : ScopeId → List ContainerId
  scopeFunctions : ScopeId → List ScopedFunction

/-- Pointwise update of a map, used to mutate one object's vector. -/
def upd {β : Type} (f : Nat → β) (i : Nat) (v : β) : Nat → β :=
  fun j => if j = i then v else f j

/-- State in which no scope or container holds anything yet. -/
def initState : SFState :=
  { containerScopes := fun _ => []
    scopeContainers := fun _ => []
    scopeFunctions := fun _ => [] }

/-- `ScopedFunctionContainer::addFunctionToScope`: construct a
`ScopedFunction(this, function)` and push it onto `scope->scopedFunctions`. -/
def addFunctionToScope (st : SFState) (c : ContainerId) (s : ScopeId) (f : FnId) : SFState :=
  { st with scopeFunctions := upd st.scopeFunctions s (st.scopeFunctions s ++ [⟨c, f⟩]) }

/-- `ScopedFunctionContainer::registerContainerToScope`: if `scope` is not in
`scopes`, push `this` onto `scope->containers` and `scope` onto `scopes`. -/
def registerContainerToScope (st : SFState) (c : ContainerId) (s : ScopeId) : SFState :=
  if s ∈ st.containerScopes c then st
  else
    { st with
      scopeContainers := upd st.scopeContainers s (st.scopeContainers s ++ [c])
      containerScopes := upd st.containerScopes c (st.containerScopes c ++ [s]) }

/-- `ScopedFunctionContainer::add`: under the container lock, add the function
to the scope, then register the container with the scope. -/
def add (st : SFState) (c : ContainerId) (s : ScopeId) (f : FnId) : SFState :=
  registerContainerToScope (addFunctionToScope st c s f) c s

/-- `ScopedFunctionContainer::remove`: erase every occurrence of `scope` from
the container's `scopes` vector (`std::remove_if` + `erase`). -/
def remove (st : SFState) (c : ContainerId) (s : ScopeId) : SFState :=
  { st with
    containerScopes :=
      upd st.containerScopes c ((st.containerScopes c).filter (fun s2 => s2 ≠ s)) }

/-- `FunctionScope::~FunctionScope`: call `container->remove(this)` for every
container in the scope's `containers` vector, then tear the scope's own
storage down (its vectors cease to exist). -/
def destroyScope (st : SFState) (s : ScopeId) : SFState :=
  let st1 := (st.scopeContainers s).foldl (fun acc c => remove acc c s) st
  { st1 with
    scopeContainers := upd st1.scopeContainers s []
    scopeFunctions := upd st1.scopeFunctions s [] }

/-- `ScopedFunctionContainer::triggerFunctions`: for each scope in `scopes`,
for each of its `scopedFunctions` whose `container` field is this container,
invoke the stored function. The result lists the invoked functions in
invocation order. -/
def triggerFunctions (st : SFState) (c : ContainerId) : List FnId :=
  ((st.containerScopes c).map
    (fun s => ((st.scopeFunctions s).filter (fun sf => sf.container = c)).map
      (fun sf => sf.function))).flatten

/-- Invocation with an argument: every function invoked by `triggerFunctions`
receives the argument tuple `args` that was passed to the trigger. -/
def triggerFunctionsWith {α : Type} (st : SFState) (c : ContainerId) (a : α) :
    List (FnId × α) :=
  ((st.containerScopes c).map
    (fun s => ((st.scopeFunctions s).filter (fun sf => sf.container = c)).map
      (fun sf => (sf.function, a)))).flatten

/-- `ScopedFunctionContainer::getNumFunctions`: total number of entries held
by the scopes in this container's `scopes` vector. -/
def getNumFunctions (st : SFState) (c : ContainerId) : Nat :=
  ((st.containerScopes c).map (fun s => (st.scopeFunctions s).length)).sum

/-- `ScopedFunctionContainer::getNumScopes`. -/
def getNumScopes (st : SFState) (c : ContainerId) : Nat :=
  (st.containerScopes c).length

/-- States reachable from `initState` by the operations the header exposes:
`add` (the only public mutator), `remove` (called by the scope destructor,
but also callable directly), and scope destruction. -/
inductive Reachable : SFState → Prop where
  | init : Reachable initState
  | add (st : SFState) (c : ContainerId) (s : ScopeId) (f : FnId) :
      Reachable st → Reachable (add st c s f)
  | remove (st : SFState) (c : ContainerId) (s : ScopeId) :
      Reachable st → Reachable (remove st c s)
  | destroy (st : SFState) (s : ScopeId) :
      Reachable st → Reachable (destroyScope st s)

/-- Structural invariant of the mutual-registration protocol: whenever a
container lists a scope, that scope lists the container back, and no
container lists the same scope twice. -/
def Invariant (st : SFState) : Prop :=
  (∀ c s, s ∈ st.containerScopes c → c ∈ st.scopeContainers s) ∧
  (∀ c, (st.containerScopes c).Nodup)

end ScopeTrackedFunctions

/-! ## Job (Source/Job.h) -/

open ScopeTrackedFunctions in
/-- One `Job` object. `addr` stands for the job's heap address (the value a
`Job*` pointer compares by); `priority` and `queuePosition` are the ordering
fields; `callbackFn` is the optional direct `callback` member (`none` models
an empty `std::function`); the remaining fields are what `linkSystem`
installs: `scopedCallbacks` and `scopedProgressCallbacks` are the (possibly
null) container pointers and `hasSendUpdateFn` records whether a
`sendUpdateFn` has been installed. -/
structure Job where
  addr : Nat
  priority : Nat
  queuePosition : Nat
  callbackFn : Option FnId
  scopedCallbacks : Option ContainerId
  scopedProgressCallbacks : Option ContainerId
  hasSendUpdateFn : Bool
deriving DecidableEq, Repr

/-- `Job::Priority::Normal` (enum value 0). -/
def Job.Normal : Nat := 0

/-- `Job::Priority::Urgent` (enum value 1). -/
def Job.Urgent : Nat := 1

/-- `Job::operator<`: equal priorities compare by `queuePosition` reversed
(lower position is greater), otherwise by the priority enum values. -/
def Job.lt (a b : Job) : Bool :=
  if a.priority = b.priority then decide (a.queuePosition > b.queuePosition)
  else decide (a.priority < b.priority)

open ScopeTrackedFunctions in
/-- `Job::linkSystem`: install the abort predicate, the two scope-tracked
container pointers and the cross-thread update dispatcher. -/
def Job.linkSystem (j : Job) (callbacks : Option ContainerId)
    (progressCallbacks : Option ContainerId) : Job :=
  { j with
    scopedCallbacks := callbacks
    scopedProgressCallbacks := progressCallbacks
    hasSendUpdateFn := true }

open ScopeTrackedFunctions in
/-- `Job::executeUpdate`: if both `sendUpdateFn` and `scopedProgressCallbacks`
are non-null, enqueue one closure that will trigger the progress container
with the given progress value; otherwise do nothing. The result is the list
of enqueued `(container, progress)` items. -/
def Job.executeUpdate (j : Job) (progress : ℚ) : List (ContainerId × ℚ) :=
  match j.scopedProgressCallbacks with
  | some pc => if j.hasSendUpdateFn then [(pc, progress)] else []
  | none => []

open ScopeTrackedFunctions in
/-- `Job::executeAction` as far as progress emission is concerned: it calls
`executeUpdate(0)` first, then runs `jobAction` and the `action` member; the
body's own progress reports (the values it passes to `executeUpdate`) are
abstracted as `bodyReports`. The result is every progress item enqueued, in
order. -/
def Job.executeActionUpdates (j : Job) (bodyReports : List ℚ) :
    List (ContainerId × ℚ) :=
  j.executeUpdate 0 ++ bodyReports.flatMap j.executeUpdate

open ScopeTrackedFunctions in
/-- `Job::executeCallback` relative to a scope-registry state `sf`: run
`jobCallback` (a no-op in the base class), then the direct `callback` if
non-empty, then `scopedCallbacks->triggerFunctions()` if the container
pointer is non-null. The result lists the invoked functions in order, the
direct callback first. -/
def Job.executeCallbackEvents (sf : SFState) (j : Job) : List FnId :=
  j.callbackFn.toList ++
    (match j.scopedCallbacks with
     | some c => triggerFunctions sf c
     | none => [])

/-! ## LockFreeFifo (Source/LockFreeFifo.h) -/

/-- One `LockFreeFifo<T>`: a bounded queue. `capacity` is the maximal number
of items the underlying `juce::AbstractFifo` lets the buffer hold (the
`AbstractFifo` constructed with size `n` stores at most `n - 1` items);
`items` are the queued values, head first. -/
structure LockFreeFifo (α : Type) where
  capacity : Nat
  items : List α
deriving DecidableEq, Repr

/-- `LockFreeFifo::push`: `prepareToWrite(1)` grants space iff the fifo is
not full; if no space is granted (`size1 + size2 <= 0`) return `false` and
leave the queue untouched, otherwise store the item and return `true`. -/
def LockFreeFifo.push {α : Type} (f : LockFreeFifo α) (x : α) :
    Bool × LockFreeFifo α :=
  if f.items.length < f.capacity then (true, { f with items := f.items ++ [x] })
  else (false, f)

/-- `LockFreeFifo::pop`: `prepareToRead(1)` grants an item iff the fifo is
non-empty; if nothing is granted return the empty value (`nullptr`),
otherwise remove and return the oldest item. -/
def LockFreeFifo.pop {α : Type} (f : LockFreeFifo α) :
    Option α × LockFreeFifo α :=
  match f.items with
  | [] => (none, f)
  | x :: xs => (some x, { f with items := xs })

/-- `LockFreeFifo::clear` (`fifo.reset()`). -/
def LockFreeFifo.clear {α : Type} (f : LockFreeFifo α) : LockFreeFifo α :=
  { f with items := [] }

/-- `LockFreeFifo::getNumItems` (`fifo.getNumReady()`). -/
def LockFreeFifo.getNumItems {α : Type} (f : LockFreeFifo α) : Nat :=
  f.items.length

/-! ## JobQueue and JobSystem (Source/JobSystem.h) -/

/-- `JobQueue` is `std::priority_queue<Job*>` with the default comparator
`std::less<Job*>`, which compares the raw pointer values; `top()` therefore
returns the stored job with the greatest address. `Job::operator<` is not
consulted. -/
def JobQueue.top : List Job → Option Job
  | [] => none
  | j :: rest =>
    match JobQueue.top rest with
    | none => some j
    | some m => if j.addr < m.addr then some m else some j

/-- `JobQueue::popJob`: return `nullptr` on an empty queue, otherwise remove
and return `top()`. -/
def JobQueue.popJob (l : List Job) : Option Job × List Job :=
  match JobQueue.top l with
  | none => (none, l)
  | some j => (some j, l.erase j)

/-- Repeatedly call `popJob` (at most `fuel` times), collecting the jobs in
the order the queue yields them. -/
def JobQueue.drain : Nat → List Job → List Job
  | 0, _ => []
  | fuel + 1, l =>
    match JobQueue.popJob l with
    | (none, _) => []
    | (some j, rest) => j :: JobQueue.drain fuel rest

open ScopeTrackedFunctions in
/-- State of one `JobSystem`: the bounded input fifo, the priority queue (as
the multiset of jobs the heap holds), the jobs currently inside the
`juce::ThreadPool` and its thread count, the bounded completion and progress
fifos, the submission counter, the abort flag, and — as history needed to
state ordering properties — the list of jobs dispatched to the pool so far. -/
structure SysState where
  inputJobs : LockFreeFifo Job
  prioritizedJobs : List Job
  poolJobs : List Job
  poolNumThreads : Nat
  finishedJobs : LockFreeFifo Job
  progressFIFO : LockFreeFifo (ContainerId × ℚ)
  queueCounter : Nat
  abort : Bool
  dispatchOrder : List Job
deriving DecidableEq, Repr

/-- Position assignment of the drain loop in `JobSystem::processJobs`: each
job popped from the input queue receives `queueCounter++` as its
`queuePosition` before being pushed into the priority queue. -/
def assignPositions : List Job → Nat → List Job
  | [], _ => []
  | j :: rest, n => { j with queuePosition := n } :: assignPositions rest (n + 1)

/-- First phase of `JobSystem::processJobs` (the `while (inputJobs.getNumItems() > 0)`
loop): move every input job into the priority queue, stamping positions. -/
def drainStep (st : SysState) : SysState :=
  { st with
    inputJobs := st.inputJobs.clear
    prioritizedJobs :=
      st.prioritizedJobs ++ assignPositions st.inputJobs.items st.queueCounter
    queueCounter := st.queueCounter + st.inputJobs.items.length }

/-- `JobSystem::processJobs`: drain the input queue, return `true` (sleep) if
the pool is saturated or nothing is queued, otherwise pop the queue's top
job, hand it to the thread pool, reset the counter if the queue emptied, and
return `false`. -/
def processJobs (st : SysState) : SysState × Bool :=
  if (drainStep st).poolJobs.length ≥ (drainStep st).poolNumThreads ∨
      (drainStep st).prioritizedJobs = [] then
    (drainStep st, true)
  else
    match JobQueue.popJob (drainStep st).prioritizedJobs with
    | (none, _) => (drainStep st, true)
    | (some j, rest) =>
      ({ drainStep st with
          prioritizedJobs := rest
          poolJobs := (drainStep st).poolJobs ++ [j]
          dispatchOrder := (drainStep st).dispatchOrder ++ [j]
          queueCounter := if rest = [] then 0 else (drainStep st).queueCounter },
        false)

/-- Tail of the worker lambda in `JobSystem::processJobs`, run after
`job->executeAction()` returns: if `abort.load()` is set the handle is
dropped, otherwise the job is pushed onto the `finishedJobs` fifo (the push
itself can still be rejected by a full fifo). The job also leaves the pool. -/
def workerFinish (st : SysState) (j : Job) : SysState :=
  if st.abort then { st with poolJobs := st.poolJobs.erase j }
  else
    { st with
      poolJobs := st.poolJobs.erase j
      finishedJobs := (st.finishedJobs.push j).2 }

/-- `juce::ThreadPool::removeAllJobs(true, 1000)`: every queued or running
pool job is removed / interrupted. -/
def removeAllJobs (st : SysState) : SysState :=
  { st with poolJobs := [] }

/-- `JobSystem::flush`: set `abort`, remove the thread pool's jobs, clear the
`finishedJobs` fifo, clear `abort`. -/
def flush (st : SysState) : SysState :=
  let st1 := { st with abort := true }
  let st2 := removeAllJobs st1
  let st3 := { st2 with finishedJobs := st2.finishedJobs.clear }
  { st3 with abort := false }

open ScopeTrackedFunctions in
/-- Callback side of `JobSystem::timerCallback`: pop every completed job from
`finishedJobs` and run its `executeCallback`, relative to the scope-registry
state `sf`. The result lists every callback invoked, in order. -/
def timerCallbackEvents (sf : SFState) (finished : List Job) : List FnId :=
  (finished.map (Job.executeCallbackEvents sf)).flatten

open ScopeTrackedFunctions in
/-- Identifier-keyed halves of the `JobSystem` used by the `pushJob` overload
taking `juce::Identifier`s: `callbackMap` and `progressCallbackMap`, each a
`std::map` from identifier to a (non-null) owned container, modelled as
association lists. -/
structure CallbackMaps where
  callbackMap : List (Nat × ContainerId)
  progressCallbackMap : List (Nat × ContainerId)
deriving DecidableEq, Repr

open ScopeTrackedFunctions in
/-- `std::map::find` on the modelled maps: the mapped container if the key is
present, `nullptr` otherwise. -/
def mapFind (m : List (Nat × ContainerId)) (key : Nat) : Option ContainerId :=
  (m.find? (fun p => p.1 = key)).map (fun p => p.2)

/-- `JobSystem::pushJob(job, callback_id, progress_callback_id)`: look both
identifiers up (`find`, which never inserts), with the progress lookup only
attempted when the identifier `isValid()`, then link the job with whatever
was found (null when absent). The maps are returned unchanged, as the code
leaves them. -/
def pushJobById (m : CallbackMaps) (j : Job) (callbackId : Nat)
    (progressCallbackId : Option Nat) : Job × CallbackMaps :=
  let callbacks := mapFind m.callbackMap callbackId
  let progressCallbacks :=
    match progressCallbackId with
    | some pid => mapFind m.progressCallbackMap pid
    | none => none
  (j.linkSystem callbacks progressCallbacks, m)

namespace ScopeTrackedFunctions

theorem upd_self {β : Type} (f : Nat → β) (i : Nat) (v : β) : upd f i v i = v := by
  simp [upd]

theorem upd_other {β : Type} (f : Nat → β) (i j : Nat) (v : β) (h : j ≠ i) :
    upd f i v j = f j := by
  simp [upd, h]

theorem add_containerScopes (st : SFState) (c : ContainerId) (s : ScopeId) (f : FnId) :
    (add st c s f).containerScopes =
      if s ∈ st.containerScopes c then st.containerScopes
      else upd st.containerScopes c (st.containerScopes c ++ [s]) := by
  unfold add registerContainerToScope addFunctionToScope
  by_cases h : s ∈ st.containerScopes c <;> simp [h]

theorem add_scopeContainers (st : SFState) (c : ContainerId) (s : ScopeId) (f : FnId) :
    (add st c s f).scopeContainers =
      if s ∈ st.containerScopes c then st.scopeContainers
      else upd st.scopeContainers s (st.scopeContainers s ++ [c]) := by
  unfold add registerContainerToScope addFunctionToScope
  by_cases h : s ∈ st.containerScopes c <;> simp [h]

theorem add_scopeFunctions (st : SFState) (c : ContainerId) (s : ScopeId) (f : FnId) :
    (add st c s f).scopeFunctions =
      upd st.scopeFunctions s (st.scopeFunctions s ++ [⟨c, f⟩]) := by
  unfold add registerContainerToScope addFunctionToScope
  by_cases h : s ∈ st.containerScopes c <;> simp [h]

theorem remove_containerScopes (st : SFState) (c : ContainerId) (s : ScopeId) :
    (remove st c s).containerScopes =
      upd st.containerScopes c ((st.containerScopes c).filter (fun s2 => s2 ≠ s)) :=
  rfl

theorem remove_scopeContainers (st : SFState) (c : ContainerId) (s : ScopeId) :
    (remove st c s).scopeContainers = st.scopeContainers := rfl

theorem remove_scopeFunctions (st : SFState) (c : ContainerId) (s : ScopeId) :
    (remove st c s).scopeFunctions = st.scopeFunctions := rfl

theorem invariant_init : Invariant initState := by
  constructor <;> intro c <;> simp [initState]

theorem invariant_add (st : SFState) (c : ContainerId) (s : ScopeId) (f : FnId)
    (h : Invariant st) : Invariant (add st c s f) := by
  obtain ⟨hwf, hnd⟩ := h
  by_cases hmem : s ∈ st.containerScopes c
  · constructor
    · intro c1 s1 h1
      rw [add_containerScopes, if_pos hmem] at h1
      rw [add_scopeContainers, if_pos hmem]
      exact hwf c1 s1 h1
    · intro c1
      rw [add_containerScopes, if_pos hmem]
      exact hnd c1
  · constructor
    · intro c1 s1 h1
      rw [add_containerScopes, if_neg hmem] at h1
      rw [add_scopeContainers, if_neg hmem]
      rcases eq_or_ne c1 c with rfl | hc
      · rw [upd_self] at h1
        rcases List.mem_append.mp h1 with h2 | h2
        · rcases eq_or_ne s1 s with rfl | hs
          · exact absurd h2 hmem
          · rw [upd_other _ _ _ _ hs]
            exact hwf c1 s1 h2
        · rw [List.mem_singleton] at h2
          subst h2
          rw [upd_self]
          exact List.mem_append_right _ (List.mem_singleton.mpr rfl)
      · rw [upd_other _ _ _ _ hc] at h1
        rcases eq_or_ne s1 s with rfl | hs
        · rw [upd_self]
          exact List.mem_append_left _ (hwf c1 s1 h1)
        · rw [upd_other _ _ _ _ hs]
          exact hwf c1 s1 h1
    · intro c1
      rw [add_containerScopes, if_neg hmem]
      rcases eq_or_ne c1 c with rfl | hc
      · rw [upd_self]
        exact (hnd c1).append (List.nodup_singleton s)
          (List.disjoint_singleton.mpr hmem)
      · rw [upd_other _ _ _ _ hc]
        exact hnd c1

theorem invariant_remove (st : SFState) (c : ContainerId) (s : ScopeId)
    (h : Invariant st) : Invariant (remove st c s) := by
  obtain ⟨hwf, hnd⟩ := h
  constructor
  · intro c1 s1 h1
    rw [remove_containerScopes] at h1
    rw [remove_scopeContainers]
    rcases eq_or_ne c1 c with rfl | hc
    · rw [upd_self] at h1
      exact hwf c1 s1 (List.mem_of_mem_filter h1)
    · rw [upd_other _ _ _ _ hc] at h1
      exact hwf c1 s1 h1
  · intro c1
    rw [remove_containerScopes]
    rcases eq_or_ne c1 c with rfl | hc
    · rw [upd_self]
      exact (hnd c1).filter _
    · rw [upd_other _ _ _ _ hc]
      exact hnd c1

theorem foldRemove_scopeContainers (l : List ContainerId) (st : SFState) (s : ScopeId) :
    (l.foldl (fun acc c => remove acc c s) st).scopeContainers = st.scopeContainers := by
  induction l generalizing st with
  | nil => rfl
  | cons c0 rest ih =>
    rw [List.foldl_cons, ih]
    rfl

theorem foldRemove_scopeFunctions (l : List ContainerId) (st : SFState) (s : ScopeId) :
    (l.foldl (fun acc c => remove acc c s) st).scopeFunctions = st.scopeFunctions := by
  induction l generalizing st with
  | nil => rfl
  | cons c0 rest ih =>
    rw [List.foldl_cons, ih]
    rfl

theorem foldRemove_containerScopes (l : List ContainerId) (st : SFState) (s : ScopeId)
    (c : ContainerId) :
    (l.foldl (fun acc c2 => remove acc c2 s) st).containerScopes c =
      if c ∈ l then (st.containerScopes c).filter (fun s2 => s2 ≠ s)
      else st.containerScopes c := by
  induction l generalizing st with
  | nil => simp
  | cons c0 rest ih =>
    rw [List.foldl_cons, ih (remove st c0 s)]
    by_cases hc : c ∈ rest
    · rw [if_pos hc, if_pos (List.mem_cons.mpr (Or.inr hc))]
      rcases eq_or_ne c c0 with rfl | hcc
      · rw [remove_containerScopes, upd_self, List.filter_filter]
        simp
      · rw [remove_containerScopes, upd_other _ _ _ _ hcc]
    · rw [if_neg hc]
      rcases eq_or_ne c c0 with rfl | hcc
      · rw [if_pos (List.mem_cons.mpr (Or.inl rfl)), remove_containerScopes, upd_self]
      · rw [if_neg (by simp [hcc, hc]), remove_containerScopes, upd_other _ _ _ _ hcc]

theorem destroyScope_containerScopes (st : SFState) (s : ScopeId) (c : ContainerId) :
    (destroyScope st s).containerScopes c =
      if c ∈ st.scopeContainers s then (st.containerScopes c).filter (fun s2 => s2 ≠ s)
      else st.containerScopes c := by
  simp only [destroyScope]
  rw [foldRemove_containerScopes]

theorem destroyScope_scopeContainers (st : SFState) (s : ScopeId) :
    (destroyScope st s).scopeContainers = upd st.scopeContainers s [] := by
  simp only [destroyScope]
  rw [foldRemove_scopeContainers]

theorem destroyScope_scopeFunctions (st : SFState) (s : ScopeId) :
    (destroyScope st s).scopeFunctions = upd st.scopeFunctions s [] := by
  simp only [destroyScope]
  rw [foldRemove_scopeFunctions]

theorem invariant_destroy (st : SFState) (s : ScopeId) (h : Invariant st) :
    Invariant (destroyScope st s) := by
  obtain ⟨hwf, hnd⟩ := h
  constructor
  · intro c1 s1 h1
    rw [destroyScope_containerScopes] at h1
    rw [destroyScope_scopeContainers]
    by_cases hc : c1 ∈ st.scopeContainers s
    · rw [if_pos hc] at h1
      have hmem := List.mem_of_mem_filter h1
      have hne : s1 ≠ s := by simpa using List.of_mem_filter h1
      rw [upd_other _ _ _ _ hne]
      exact hwf c1 s1 hmem
    · rw [if_neg hc] at h1
      have hne : s1 ≠ s := by
        rintro rfl
        exact hc (hwf c1 s1 h1)
      rw [upd_other _ _ _ _ hne]
      exact hwf c1 s1 h1
  · intro c1
    rw [destroyScope_containerScopes]
    by_cases hc : c1 ∈ st.scopeContainers s
    · rw [if_pos hc]
      exact (hnd c1).filter _
    · rw [if_neg hc]
      exact hnd c1

theorem reachable_invariant (st : SFState) (h : Reachable st) : Invariant st := by
  induction h with
  | init => exact invariant_init
  | add st c s f _ ih => exact invariant_add st c s f ih
  | remove st c s _ ih => exact invariant_remove st c s ih
  | destroy st s _ ih => exact invariant_destroy st s ih

theorem mem_triggerFunctions (st : SFState) (c : ContainerId) (f : FnId) :
    f ∈ triggerFunctions st c ↔
      ∃ s1, s1 ∈ st.containerScopes c ∧
        (⟨c, f⟩ : ScopedFunction) ∈ st.scopeFunctions s1 := by
  unfold triggerFunctions
  constructor
  · intro hf
    rcases List.mem_flatten.mp hf with ⟨l2, hl2, hfl2⟩
    rcases List.mem_map.mp hl2 with ⟨s1, hs1, rfl⟩
    rcases List.mem_map.mp hfl2 with ⟨sf, hsf, rfl⟩
    have hmem := List.mem_of_mem_filter hsf
    have hcond : sf.container = c := by simpa using List.of_mem_filter hsf
    refine ⟨s1, hs1, ?_⟩
    obtain ⟨sc, sfn⟩ := sf
    cases hcond
    exact hmem
  · rintro ⟨s1, hs1, hmem⟩
    refine List.mem_flatten.mpr ⟨_, List.mem_map.mpr ⟨s1, hs1, rfl⟩, ?_⟩
    exact List.mem_map.mpr ⟨⟨c, f⟩, List.mem_filter.mpr ⟨hmem, by simp⟩, rfl⟩

theorem count_filter_map_entry (fs : List ScopedFunction) (c : ContainerId) (f : FnId) :
    (((fs.filter (fun sf => sf.container = c)).map (fun sf => sf.function)).count f)
      = fs.count ⟨c, f⟩ := by
  induction fs with
  | nil => rfl
  | cons sf rest ih =>
    obtain ⟨sc, sfn⟩ := sf
    by_cases hc : sc = c
    · subst hc
      by_cases hf : sfn = f
      · subst hf
        simp [List.count_cons, ih]
      · simp [List.count_cons, ih, hf]
    · simp [List.count_cons, ih, hc]

theorem count_triggerFunctions (st : SFState) (c : ContainerId) (f : FnId) :
    (triggerFunctions st c).count f =
      ((st.containerScopes c).map (fun s => (st.scopeFunctions s).count ⟨c, f⟩)).sum := by
  unfold triggerFunctions
  induction st.containerScopes c with
  | nil => rfl
  | cons s l ih =>
    simp only [List.map_cons, List.flatten_cons, List.count_append, List.sum_cons, ih]
    rw [count_filter_map_entry]

theorem triggerFunctionsWith_eq (st : SFState) (c : ContainerId) {α : Type} (a : α) :
    triggerFunctionsWith st c a = (triggerFunctions st c).map (fun f => (f, a)) := by
  unfold triggerFunctions triggerFunctionsWith
  induction st.containerScopes c with
  | nil => rfl
  | cons s l ih =>
    simp only [List.map_cons, List.flatten_cons, List.map_append, ih, List.map_map]
    rfl

theorem length_triggerFunctions (st : SFState) (c : ContainerId) :
    (triggerFunctions st c).length =
      ((st.containerScopes c).map
        (fun s => ((st.scopeFunctions s).filter (fun sf => sf.container = c)).length)).sum := by
  unfold triggerFunctions
  induction st.containerScopes c with
  | nil => rfl
  | cons s l ih =>
    simp only [List.map_cons, List.flatten_cons, List.length_append, List.sum_cons, ih,
      List.length_map]

theorem sum_map_upd_point (l : List Nat) (hnd : l.Nodup) (s : Nat) (hs : s ∈ l)
    (g g' : Nat → Nat) (hgs : g' s = g s + 1) (hother : ∀ x, x ≠ s → g' x = g x) :
    (l.map g').sum = (l.map g).sum + 1 := by
  induction l with
  | nil => cases hs
  | cons x xs ih =>
    rcases List.mem_cons.mp hs with rfl | hxs
    · have hnotin : s ∉ xs := (List.nodup_cons.mp hnd).1
      have hmap : xs.map g' = xs.map g :=
        List.map_congr_left (fun y hy => hother y (fun hEq => hnotin (hEq ▸ hy)))
      simp only [List.map_cons, List.sum_cons, hgs, hmap]
      omega
    · have hx : x ≠ s := by
        rintro rfl
        exact (List.nodup_cons.mp hnd).1 hxs
      simp only [List.map_cons, List.sum_cons, hother x hx,
        ih (List.nodup_cons.mp hnd).2 hxs]
      omega

/-- C1: in every reachable registry state, once a `FunctionScope`'s
destructor has run, no container retains an entry for that scope, and any
callback a later `triggerFunctions` invokes on any container comes from a
surviving scope whose entries destruction left untouched — so nothing
registered under the destroyed scope is ever invoked. -/
theorem destroyed_scope_never_triggered (st : SFState) (h : Reachable st)
    (s : ScopeId) (c : ContainerId) :
    s ∉ (destroyScope st s).containerScopes c ∧
    (∀ f, f ∈ triggerFunctions (destroyScope st s) c →
      ∃ s1, s1 ≠ s ∧ s1 ∈ st.containerScopes c ∧
        (⟨c, f⟩ : ScopedFunction) ∈ st.scopeFunctions s1) := by
  obtain ⟨hwf, hnd⟩ := reachable_invariant st h
  have hnotin : s ∉ (destroyScope st s).containerScopes c := by
    rw [destroyScope_containerScopes]
    by_cases hc : c ∈ st.scopeContainers s
    · rw [if_pos hc]
      intro hmem
      have := List.of_mem_filter hmem
      simp at this
    · rw [if_neg hc]
      intro hmem
      exact hc (hwf c s hmem)
  refine ⟨hnotin, ?_⟩
  intro f hf
  rcases (mem_triggerFunctions _ c f).mp hf with ⟨s1, hs1, hentry⟩
  have hne : s1 ≠ s := fun hEq => hnotin (hEq ▸ hs1)
  have hs1' : s1 ∈ st.containerScopes c := by
    rw [destroyScope_containerScopes] at hs1
    by_cases hc : c ∈ st.scopeContainers s
    · rw [if_pos hc] at hs1
      exact List.mem_of_mem_filter hs1
    · rwa [if_neg hc] at hs1
  have hfn : (destroyScope st s).scopeFunctions s1 = st.scopeFunctions s1 := by
    rw [destroyScope_scopeFunctions, upd_other _ _ _ _ hne]
  exact ⟨s1, hne, hs1', hfn ▸ hentry⟩

/-- Witness for C1: a scope registered once and then destroyed has no entry
left in the container. -/
theorem destroyed_scope_never_triggered_witness :
    0 ∉ (destroyScope (add initState 0 0 5) 0).containerScopes 0 :=
  (destroyed_scope_never_triggered _ (Reachable.add _ 0 0 5 Reachable.init) 0 0).1

/-- C6: `triggerFunctions` on a container invokes each callback registered in
it exactly once (the invocation count of a function equals the number of its
registrations recorded for this container across the container's scopes),
invokes only entries whose recorded container is this container, hands the
trigger's argument to every invocation, and invokes nothing when the
container has no registered scopes. -/
theorem triggerFunctions_correct (st : SFState) (c : ContainerId) :
    (∀ f : FnId, (triggerFunctions st c).count f =
        ((st.containerScopes c).map (fun s => (st.scopeFunctions s).count ⟨c, f⟩)).sum) ∧
    (∀ f : FnId, f ∈ triggerFunctions st c →
        ∃ s, s ∈ st.containerScopes c ∧ (⟨c, f⟩ : ScopedFunction) ∈ st.scopeFunctions s) ∧
    (∀ (α : Type) (a : α),
        triggerFunctionsWith st c a = (triggerFunctions st c).map (fun f => (f, a))) ∧
    (st.containerScopes c = [] → triggerFunctions st c = []) := by
  refine ⟨count_triggerFunctions st c, ?_, ?_, ?_⟩
  · intro f hf
    exact (mem_triggerFunctions st c f).mp hf
  · intro α a
    exact triggerFunctionsWith_eq st c a
  · intro hempty
    unfold triggerFunctions
    rw [hempty]
    rfl

/-- Witness for C6: a container with no registered scopes triggers nothing. -/
theorem triggerFunctions_correct_witness :
    triggerFunctions initState 0 = [] :=
  (triggerFunctions_correct initState 0).2.2.2 rfl

/-- C7: calling `add` for a scope the container already lists appends the new
callback to that scope's list while leaving every scope-registration vector
(the container's `scopes` and every scope's `containers`) unchanged, and one
trigger afterwards invokes exactly one more callback than before. -/
theorem add_existing_scope (st : SFState) (h : Reachable st) (c : ContainerId)
    (s : ScopeId) (f : FnId) (hmem : s ∈ st.containerScopes c) :
    (add st c s f).containerScopes = st.containerScopes ∧
    (add st c s f).scopeContainers = st.scopeContainers ∧
    (add st c s f).scopeFunctions s = st.scopeFunctions s ++ [⟨c, f⟩] ∧
    (triggerFunctions (add st c s f) c).length = (triggerFunctions st c).length + 1 := by
  obtain ⟨hwf, hnd⟩ := reachable_invariant st h
  have hcs : (add st c s f).containerScopes = st.containerScopes := by
    rw [add_containerScopes, if_pos hmem]
  have hsc : (add st c s f).scopeContainers = st.scopeContainers := by
    rw [add_scopeContainers, if_pos hmem]
  have hsf : (add st c s f).scopeFunctions s = st.scopeFunctions s ++ [⟨c, f⟩] := by
    rw [add_scopeFunctions, upd_self]
  refine ⟨hcs, hsc, hsf, ?_⟩
  rw [length_triggerFunctions, length_triggerFunctions, hcs]
  refine sum_map_upd_point (st.containerScopes c) (hnd c) s hmem _ _ ?_ ?_
  · rw [hsf, List.filter_append, List.length_append]
    simp
  · intro x hx
    rw [add_scopeFunctions, upd_other _ _ _ _ hx]

/-- Witness for C7: a second `add` for the same scope appends the callback to
the scope's list. -/
theorem add_existing_scope_witness :
    (add (add initState 0 0 1) 0 0 2).scopeFunctions 0 =
      (add initState 0 0 1).scopeFunctions 0 ++ [⟨0, 2⟩] :=
  (add_existing_scope _ (Reachable.add _ 0 0 1 Reachable.init) 0 0 2
    (by decide)).2.2.1

end ScopeTrackedFunctions

open ScopeTrackedFunctions

/-! ## LockFreeFifo theorems -/

/-- C5: pushing to a `LockFreeFifo` at capacity returns `false` and leaves
the queue contents unchanged; popping an empty fifo returns the empty value
and changes nothing; pushing to a non-full fifo returns `true` and appends
the item at the tail. -/
theorem lockFreeFifo_push_pop {α : Type} (f : LockFreeFifo α) (x : α) :
    (f.items.length = f.capacity → (f.push x).1 = false ∧ (f.push x).2 = f) ∧
    (f.items = [] → (f.pop).1 = none ∧ (f.pop).2 = f) ∧
    (f.items.length < f.capacity →
      (f.push x).1 = true ∧ (f.push x).2.items = f.items ++ [x]) := by
  refine ⟨?_, ?_, ?_⟩
  · intro hfull
    unfold LockFreeFifo.push
    rw [if_neg (by omega)]
    exact ⟨rfl, rfl⟩
  · intro hempty
    unfold LockFreeFifo.pop
    rw [hempty]
    exact ⟨rfl, rfl⟩
  · intro hlt
    unfold LockFreeFifo.push
    rw [if_pos hlt]
    exact ⟨rfl, rfl⟩

/-- Witness for C5: a capacity-2 fifo holding two items rejects a push; an
empty fifo pops nothing; a one-item fifo accepts a push. -/
theorem lockFreeFifo_push_pop_witness :
    ((⟨2, [10, 20]⟩ : LockFreeFifo Nat).push 30).1 = false ∧
    ((⟨2, []⟩ : LockFreeFifo Nat).pop).1 = none ∧
    ((⟨2, [10]⟩ : LockFreeFifo Nat).push 30).1 = true :=
  ⟨((lockFreeFifo_push_pop ⟨2, [10, 20]⟩ 30).1 (by decide)).1,
   ((lockFreeFifo_push_pop ⟨2, []⟩ 30).2.1 (by decide)).1,
   ((lockFreeFifo_push_pop ⟨2, [10]⟩ 30).2.2 (by decide)).1⟩

/-! ## Job ordering and JobQueue theorems -/

/-- Top of a `JobQueue` is an element of the queue. -/
theorem JobQueue.top_mem (l : List Job) (j : Job) (h : JobQueue.top l = some j) :
    j ∈ l := by
  induction l generalizing j with
  | nil => cases h
  | cons a rest ih =>
    unfold JobQueue.top at h
    split at h
    next =>
      cases h
      exact List.mem_cons_self a rest
    next m htop =>
      by_cases hlt : a.addr < m.addr
      · rw [if_pos hlt] at h
        cases h
        exact List.mem_cons_of_mem a (ih _ htop)
      · rw [if_neg hlt] at h
        cases h
        exact List.mem_cons_self a rest

/-- Unfolding of a successful `popJob`: the job returned is the queue's top
and the remaining multiset is the queue with that job erased. -/
theorem JobQueue.popJob_some (l : List Job) (j : Job) (rest : List Job)
    (h : JobQueue.popJob l = (some j, rest)) :
    JobQueue.top l = some j ∧ rest = l.erase j := by
  unfold JobQueue.popJob at h
  split at h
  next htop =>
    injection h with h1 h2
    exact Option.noConfusion h1
  next m htop =>
    injection h with h1 h2
    injection h1 with h1
    subst h1
    exact ⟨htop, h2.symm⟩

/-- C2 (refuted as stated): `Job::operator<` itself orders exactly as the
claim describes, but `JobQueue` inherits `std::priority_queue<Job*>` with the
default `std::less<Job*>` comparator, which orders by pointer value and never
consults `Job::operator<`. On the claimed scenario — Normal jobs A, B, C
(positions 0, 1, 2) and Urgent job D (position 3), with heap addresses
40, 30, 20, 10 — repeated `popJob` yields A, B, C, D (descending address),
not D, A, B, C. -/
theorem jobQueue_ignores_job_ordering :
    (∀ a b : Job, Job.lt a b = true ↔
        (a.priority < b.priority ∨
          (a.priority = b.priority ∧ a.queuePosition > b.queuePosition))) ∧
    JobQueue.drain 4
        [⟨40, Job.Normal, 0, none, none, none, false⟩,
         ⟨30, Job.Normal, 1, none, none, none, false⟩,
         ⟨20, Job.Normal, 2, none, none, none, false⟩,
         ⟨10, Job.Urgent, 3, none, none, none, false⟩] =
      [⟨40, Job.Normal, 0, none, none, none, false⟩,
       ⟨30, Job.Normal, 1, none, none, none, false⟩,
       ⟨20, Job.Normal, 2, none, none, none, false⟩,
       ⟨10, Job.Urgent, 3, none, none, none, false⟩] ∧
    JobQueue.drain 4
        [⟨40, Job.Normal, 0, none, none, none, false⟩,
         ⟨30, Job.Normal, 1, none, none, none, false⟩,
         ⟨20, Job.Normal, 2, none, none, none, false⟩,
         ⟨10, Job.Urgent, 3, none, none, none, false⟩] ≠
      [⟨10, Job.Urgent, 3, none, none, none, false⟩,
       ⟨40, Job.Normal, 0, none, none, none, false⟩,
       ⟨30, Job.Normal, 1, none, none, none, false⟩,
       ⟨20, Job.Normal, 2, none, none, none, false⟩] := by
  refine ⟨?_, by decide, by decide⟩
  intro a b
  unfold Job.lt
  by_cases h : a.priority = b.priority
  · simp [h]
  · simp [h]

/-! ## JobSystem theorems -/

/-- Each job drained from the input queue gets `queueCounter + i` as its
`queuePosition`, where `i` is its index in drain order; no other field
changes. -/
theorem assignPositions_get (l : List Job) (n i : Nat) :
    (assignPositions l n)[i]? =
      l[i]?.map (fun j => { j with queuePosition := n + i }) := by
  induction l generalizing n i with
  | nil => simp [assignPositions]
  | cons j rest ih =>
    cases i with
    | zero => simp [assignPositions]
    | succ k =>
      simp only [assignPositions, List.getElem?_cons_succ, ih]
      rw [Nat.add_assoc, Nat.add_comm 1 k]

/-- C8: one scheduling pass (i) stamps each drained job with the strictly
increasing positions `queueCounter`, `queueCounter + 1`, … in drain order and
appends them to the priority queue, leaving their other fields alone — the
only place a `queuePosition` is ever written; (ii) moves jobs between the
priority queue and the dispatch list verbatim, never rewriting a stamped
position; and (iii) resets the submission counter to zero whenever a
dispatch leaves the priority queue empty. -/
theorem processJobs_positions (st : SysState) :
    ((drainStep st).prioritizedJobs =
        st.prioritizedJobs ++ assignPositions st.inputJobs.items st.queueCounter) ∧
    (∀ i : Nat, (assignPositions st.inputJobs.items st.queueCounter)[i]? =
        st.inputJobs.items[i]?.map (fun j => { j with queuePosition := st.queueCounter + i })) ∧
    ((processJobs st).1.prioritizedJobs ++ (processJobs st).1.dispatchOrder).Perm
      ((drainStep st).prioritizedJobs ++ st.dispatchOrder) ∧
    ((processJobs st).2 = false → (processJobs st).1.prioritizedJobs = [] →
      (processJobs st).1.queueCounter = 0) := by
  refine ⟨rfl, fun i => assignPositions_get _ _ i, ?_, ?_⟩
  · unfold processJobs
    split
    next hidle => exact List.Perm.refl _
    next hidle =>
      split
      next x heq => exact List.Perm.refl _
      next j rest heq =>
        obtain ⟨htop, hrest⟩ := JobQueue.popJob_some _ _ _ heq
        have hjmem : j ∈ (drainStep st).prioritizedJobs := JobQueue.top_mem _ _ htop
        have hperm : (drainStep st).prioritizedJobs.Perm (j :: rest) := by
          rw [hrest]
          exact List.perm_cons_erase hjmem
        show (rest ++ (st.dispatchOrder ++ [j])).Perm
          ((drainStep st).prioritizedJobs ++ st.dispatchOrder)
        have h1 : (rest ++ (st.dispatchOrder ++ [j])).Perm
            ((j :: rest) ++ st.dispatchOrder) := by
          rw [← List.append_assoc]
          have h2 : ((rest ++ st.dispatchOrder) ++ [j]).Perm
              (j :: (rest ++ st.dispatchOrder)) :=
            List.perm_append_singleton j (rest ++ st.dispatchOrder)
          exact h2
        exact h1.trans ((hperm.append_right st.dispatchOrder).symm)
  · unfold processJobs
    split
    next hidle =>
      intro hfalse
      exact absurd hfalse (by simp)
    next hidle =>
      split
      next x heq =>
        intro hfalse
        exact absurd hfalse (by simp)
      next j rest heq =>
        intro _ hpq
        have hpq' : rest = [] := hpq
        show (if rest = [] then 0 else (drainStep st).queueCounter) = 0
        rw [if_pos hpq']

/-- Witness for C8: a single Normal job drained into an empty queue and
dispatched empties the queue, so the counter resets to zero. -/
theorem processJobs_positions_witness :
    (processJobs ⟨⟨2047, [⟨1, 0, 0, none, none, none, false⟩]⟩, [], [], 1,
        ⟨2047, []⟩, ⟨2047, []⟩, 5, false, []⟩).1.queueCounter = 0 :=
  (processJobs_positions _).2.2.2 (by decide) (by decide)

/-- C4: the post-action check in the worker wrapper delivers the finished job
to the completion queue exactly when the abort flag is clear: with the flag
set the handle is dropped, the completion queue is untouched, and the timer
drain therefore invokes exactly the callbacks it would have invoked without
this job; with the flag clear the job is pushed onto the completion queue. -/
theorem abort_drops_finished_job (st : SysState) (j : Job) (sf : SFState) :
    (st.abort = true →
      (workerFinish st j).finishedJobs = st.finishedJobs ∧
      timerCallbackEvents sf (workerFinish st j).finishedJobs.items =
        timerCallbackEvents sf st.finishedJobs.items) ∧
    (st.abort = false →
      (workerFinish st j).finishedJobs = (st.finishedJobs.push j).2) := by
  constructor
  · intro habort
    unfold workerFinish
    rw [if_pos habort]
    exact ⟨rfl, rfl⟩
  · intro habort
    unfold workerFinish
    rw [if_neg (by rw [habort]; exact Bool.false_ne_true)]

/-- Witness for C4: with the abort flag raised, finishing a job leaves the
completion queue unchanged; with it clear, the job is appended. -/
theorem abort_drops_finished_job_witness :
    (workerFinish ⟨⟨2047, []⟩, [], [⟨1, 0, 0, none, none, none, false⟩], 1,
        ⟨2047, []⟩, ⟨2047, []⟩, 0, true, []⟩
      ⟨1, 0, 0, none, none, none, false⟩).finishedJobs =
      (⟨2047, []⟩ : LockFreeFifo Job) :=
  ((abort_drops_finished_job _ _ initState).1 rfl).1

/-- C3 (code bug): `flush` on a system holding one submitted-but-undrained
job, one prioritized job and one completed job clears the completion queue
and ends with the abort flag down, but leaves the input queue and the
priority queue holding their jobs — `flush` never discards them, contrary to
its own documentation. -/
theorem flush_leaves_input_and_priority_queues :
    (flush ⟨⟨2047, [⟨1, 0, 0, none, none, none, false⟩]⟩,
        [⟨2, 0, 0, none, none, none, false⟩], [], 1,
        ⟨2047, [⟨3, 0, 0, none, none, none, false⟩]⟩, ⟨2047, []⟩, 3, false,
        []⟩).inputJobs.items = [⟨1, 0, 0, none, none, none, false⟩] ∧
    (flush ⟨⟨2047, [⟨1, 0, 0, none, none, none, false⟩]⟩,
        [⟨2, 0, 0, none, none, none, false⟩], [], 1,
        ⟨2047, [⟨3, 0, 0, none, none, none, false⟩]⟩, ⟨2047, []⟩, 3, false,
        []⟩).prioritizedJobs = [⟨2, 0, 0, none, none, none, false⟩] ∧
    (flush ⟨⟨2047, [⟨1, 0, 0, none, none, none, false⟩]⟩,
        [⟨2, 0, 0, none, none, none, false⟩], [], 1,
        ⟨2047, [⟨3, 0, 0, none, none, none, false⟩]⟩, ⟨2047, []⟩, 3, false,
        []⟩).finishedJobs.items = [] ∧
    (flush ⟨⟨2047, [⟨1, 0, 0, none, none, none, false⟩]⟩,
        [⟨2, 0, 0, none, none, none, false⟩], [], 1,
        ⟨2047, [⟨3, 0, 0, none, none, none, false⟩]⟩, ⟨2047, []⟩, 3, false,
        []⟩).abort = false := by
  refine ⟨rfl, rfl, rfl, rfl⟩

/-- C9: `pushJob` with a callback identifier that was never registered links
the job with a null scope-tracked container and creates no map entry; the
job's completion then runs only its direct callback, in every later registry
state — in particular after the identifier is registered, since the job
holds the null pointer, not the identifier. -/
theorem pushJob_unknown_id (m : CallbackMaps) (j : Job) (cid : Nat)
    (pid : Option Nat) (h : mapFind m.callbackMap cid = none) :
    (pushJobById m j cid pid).1.scopedCallbacks = none ∧
    (pushJobById m j cid pid).2 = m ∧
    (∀ sf : SFState,
      Job.executeCallbackEvents sf (pushJobById m j cid pid).1 =
        j.callbackFn.toList) := by
  unfold pushJobById Job.linkSystem
  refine ⟨by simp [h], rfl, ?_⟩
  intro sf
  unfold Job.executeCallbackEvents
  simp [h]

/-- Witness for C9: pushing against empty maps links a null container. -/
theorem pushJob_unknown_id_witness :
    (pushJobById ⟨[], []⟩ ⟨1, 0, 0, some 9, none, none, false⟩ 3 none).1.scopedCallbacks
      = none :=
  (pushJob_unknown_id ⟨[], []⟩ ⟨1, 0, 0, some 9, none, none, false⟩ 3 none rfl).1

/-- C10: a job with an installed update dispatcher and a non-null progress
container always enqueues a progress item with value 0 before any report the
action body makes; if the dispatcher or the container is missing,
`executeUpdate` enqueues nothing. -/
theorem executeAction_first_update (j : Job) (bodyReports : List ℚ) :
    (∀ pc, j.scopedProgressCallbacks = some pc → j.hasSendUpdateFn = true →
      j.executeActionUpdates bodyReports =
        (pc, 0) :: bodyReports.flatMap j.executeUpdate) ∧
    ((j.hasSendUpdateFn = false ∨ j.scopedProgressCallbacks = none) →
      ∀ p : ℚ, j.executeUpdate p = []) := by
  constructor
  · intro pc hpc hsend
    unfold Job.executeActionUpdates
    have h0 : j.executeUpdate 0 = [(pc, 0)] := by
      unfold Job.executeUpdate
      rw [hpc]
      simp [hsend]
    rw [h0]
    rfl
  · rintro (hsend | hpc) p
    · unfold Job.executeUpdate
      cases h : j.scopedProgressCallbacks with
      | none => rfl
      | some pc => simp [hsend]
    · unfold Job.executeUpdate
      rw [hpc]

/-- Witness for C10: a fully linked job with an empty body enqueues exactly
the initial zero-progress item. -/
theorem executeAction_first_update_witness :
    (⟨1, 0, 0, none, none, some 7, true⟩ : Job).executeActionUpdates [] = [(7, 0)] := by
  have h := (executeAction_first_update ⟨1, 0, 0, none, none, some 7, true⟩ []).1 7 rfl rfl
  simpa using h

end JJS
